import Mathlib

/-!
Verification development for `zip_sort_zip.py`, a three-stage pipeline that
unzips a folder of zip archives, sorts the extracted files into per-day
bucket folders by modification date, and re-zips each bucket.

The Python source is shallowly embedded below: each Python function becomes a
Lean function over explicit state (directory listings are lists, the scratch
filesystem is an association list from path to timestamps), platform services
(`time.mktime`, `datetime.fromtimestamp`) are uninterpreted function
parameters, and fallible steps return an error option mirroring the raised
exception.
-/

set_option maxRecDepth 4000

namespace ZipSortZip

/-! ## Digits, date rendering and parsing

`strftime`/`strptime` are modelled only for the directives the program uses
(`%m`, `%d`, `%Y`, and the literal text around them).
-/

/-- The decimal digit character for `n < 10` (ASCII `48 + n`). -/
def digitChar (n : Nat) : Char := Char.ofNat (48 + n)

/-- Decode an ASCII decimal digit, as the strptime regex character class `\d` does. -/
def digitVal? (c : Char) : Option Nat :=
  if 48 ≤ c.toNat ∧ c.toNat ≤ 57 then some (c.toNat - 48) else none

/-- Two-digit zero-padded rendering, as `strftime` does for `%m`/`%d` (values `0..99`). -/
def pad2c (n : Nat) : List Char := [digitChar (n / 10), digitChar (n % 10)]

/-- Four-digit zero-padded rendering, as `strftime` does for `%Y` (values `0..9999`). -/
def pad4c (n : Nat) : List Char :=
  [digitChar (n / 1000), digitChar (n / 100 % 10), digitChar (n / 10 % 10), digitChar (n % 10)]

/-- A calendar date at day granularity.  Both call sites of `strftime` in the
program use only date directives (the Bucketer's `"%m_%d_%Y"` key and the
Archiver's configurable date format applied to a midnight `datetime` obtained
from `strptime`), so time-of-day fields are fixed at zero in the model. -/
structure SDate where
  year : Nat
  month : Nat
  day : Nat
deriving DecidableEq, Repr

/-- Character-level model of `datetime.strftime`: literal characters pass
through, `%`-directives are substituted.  Directives not used by the program
fall through as literal text (glibc behavior for unknown directives). -/
def strfGo (dt : SDate) : List Char → List Char
  | [] => []
  | '%' :: c :: rest =>
    (match c with
     | 'Y' => pad4c dt.year
     | 'm' => pad2c dt.month
     | 'd' => pad2c dt.day
     | 'H' => pad2c 0
     | 'M' => pad2c 0
     | 'S' => pad2c 0
     | '%' => ['%']
     | c' => ['%', c']) ++ strfGo dt rest
  | c :: rest => c :: strfGo dt rest

/-- Model of `datetime.strftime(fmt)` on a date-only value. -/
def strftimeD (fmt : String) (dt : SDate) : String := ⟨strfGo dt fmt.data⟩

/-- First successful alternative, mirroring regex alternation with backtracking:
candidates are tried in order and the continuation decides success. -/
def firstSome {α β : Type} : List α → (α → Option β) → Option β
  | [], _ => none
  | x :: xs, f =>
    match f x with
    | some b => some b
    | none => firstSome xs f

/-- Candidate matches for the strptime `%m` regex `(1[0-2]|0[1-9]|[1-9])`, in
regex alternation order: the two-digit alternatives first, then the bare
single digit. -/
def monthCands : List Char → List (Nat × List Char)
  | a :: b :: rest =>
    (match digitVal? a, digitVal? b with
     | some da, some db =>
       (if (da = 1 ∧ db ≤ 2) ∨ (da = 0 ∧ 1 ≤ db) then [(10 * da + db, rest)] else [])
       ++ (if 1 ≤ da then [(da, b :: rest)] else [])
     | some da, none => if 1 ≤ da then [(da, b :: rest)] else []
     | none, _ => [])
  | [a] =>
    (match digitVal? a with
     | some da => if 1 ≤ da then [(da, ([] : List Char))] else []
     | none => [])
  | [] => []

/-- Candidate matches for the strptime `%d` regex `(3[01]|[12]\d|0[1-9]|[1-9])`. -/
def dayCands : List Char → List (Nat × List Char)
  | a :: b :: rest =>
    (match digitVal? a, digitVal? b with
     | some da, some db =>
       (if (da = 3 ∧ db ≤ 1) ∨ da = 1 ∨ da = 2 ∨ (da = 0 ∧ 1 ≤ db) then
          [(10 * da + db, rest)]
        else [])
       ++ (if 1 ≤ da then [(da, b :: rest)] else [])
     | some da, none => if 1 ≤ da then [(da, b :: rest)] else []
     | none, _ => [])
  | [a] =>
    (match digitVal? a with
     | some da => if 1 ≤ da then [(da, ([] : List Char))] else []
     | none => [])
  | [] => []

/-- The strptime `%Y` regex `(\d\d\d\d)`: exactly four digits. -/
def year4 : List Char → Option (Nat × List Char)
  | a :: b :: c :: d :: rest =>
    (match digitVal? a, digitVal? b, digitVal? c, digitVal? d with
     | some da, some db, some dc, some dd => some (1000 * da + 100 * db + 10 * dc + dd, rest)
     | _, _, _, _ => none)
  | _ => none

/-- Structural part of `datetime.strptime(s, "%m_%d_%Y")`: the compiled regex
match (with backtracking across the alternations), anchored at both ends
(strptime rejects unconverted trailing data).  Returns `(month, day, year)`. -/
def parseMDY (s : List Char) : Option (Nat × Nat × Nat) :=
  firstSome (monthCands s) fun mc =>
    match mc.2 with
    | '_' :: r2 =>
      firstSome (dayCands r2) fun dc =>
        match dc.2 with
        | '_' :: r4 =>
          (match year4 r4 with
           | some (y, []) => some (mc.1, dc.1, y)
           | _ => none)
        | _ => none
    | _ => none

/-- Gregorian leap-year rule, as `datetime` validates it. -/
def isLeap (y : Nat) : Bool := y % 4 = 0 && (y % 100 != 0 || y % 400 = 0)

/-- Days in a month, as `datetime` validates day-of-month. -/
def daysInMonth (y m : Nat) : Nat :=
  if m = 2 then (if isLeap y then 29 else 28)
  else if m = 4 ∨ m = 6 ∨ m = 9 ∨ m = 11 then 30
  else 31

/-- Model of `datetime.strptime(s, "%m_%d_%Y")` (line 146 of the source):
regex match, then `datetime` construction which validates the day against the
month and requires `MINYEAR = 1`; failure models the raised `ValueError`. -/
def strptime_mdY (s : String) : Option SDate :=
  match parseMDY s.data with
  | some (m, d, y) => if 1 ≤ y ∧ d ≤ daysInMonth y m then some ⟨y, m, d⟩ else none
  | none => none

/-! ## Paths and glob matching -/

/-- Whether a directory entry's base name matches the glob pattern `*.*` used
at lines 95 and 137 of the source: `*` never crosses a path separator, the
name must contain a dot, and glob hides entries whose name starts with a dot
unless the pattern does. -/
def matchesStarDotStar (s : String) : Bool :=
  !s.data.contains '/' && s.data.contains '.' &&
    (match s.data with
     | '.' :: _ => false
     | _ => true)

/-- Model of `os.path.join(base, name)` for a relative `name`, as the program
always passes (member names, bucket names, entry base names). -/
def joinPath (base name : String) : String := base ++ "/" ++ name

/-- Model of `os.path.relpath(file, base)` for the only use in the program,
where `file` was produced by globbing inside `base` and so lies directly
under it. -/
def relpathUnder (file base : String) : String :=
  if (base.data ++ ['/']).isPrefixOf file.data then ⟨file.data.drop (base.data.length + 1)⟩
  else file

/-! ## Bucketer: `sort_files_by_date` (lines 84-113) -/

/-- A regular file sitting directly in a directory: base name and
modification timestamp (seconds, as `os.path.getmtime` returns). -/
structure FsFile where
  name : String
  mtime : Int
deriving DecidableEq, Repr

/-- The date format the Bucketer uses to render a bucket folder name
(line 104 of the source). -/
def bucketerDateFormat : String := "%m_%d_%Y"

/-- The date format the Archiver uses to parse a bucket folder name back
(line 146 of the source, the literal handed to `strptime`). -/
def archiverFolderDateFormat : String := "%m_%d_%Y"

/-- Model of `sort_files_by_date`: glob `*.*` over the unzip folder, and move
each matched file into the bucket folder named by its modification date
rendered with `"%m_%d_%Y"`.  `toDate` stands for
`datetime.fromtimestamp` (local-time calendar conversion, a platform
service).  The result lists the performed moves as
(bucket folder name, file) pairs; within one run the base names are the
distinct entries of one directory, so the end state of the sorted folder is
exactly this list. -/
def sort_files_by_date (toDate : Int → SDate) (files : List FsFile) :
    List (String × FsFile) :=
  (files.filter fun f => matchesStarDotStar f.name).map fun f =>
    (strftimeD bucketerDateFormat (toDate f.mtime), f)

/-! ## Python `str.format` for the archive-name template -/

/-- The two keyword arguments passed to `archive_name_format.format(...)` at
lines 150-153: `date_format` and `file_count`. -/
def fieldValue (dateStr countStr : String) (name : List Char) : Option String :=
  if name = "date_format".data then some dateStr
  else if name = "file_count".data then some countStr
  else none

/-- Step-by-step model of Python `str.format` restricted to plain named
fields: doubled braces are literal braces, `\x7bname\x7d` substitutes the
keyword argument, an unknown field or stray brace fails (KeyError /
ValueError).  The fuel argument only bounds recursion; one unit is spent per
consumed prefix, so `length + 1` always suffices. -/
def fmtGo (dateStr countStr : String) : Nat → List Char → Option (List Char)
  | 0, _ => none
  | _ + 1, [] => some []
  | fuel + 1, '\x7b' :: '\x7b' :: rest => (fmtGo dateStr countStr fuel rest).map ('\x7b' :: ·)
  | fuel + 1, '\x7d' :: '\x7d' :: rest => (fmtGo dateStr countStr fuel rest).map ('\x7d' :: ·)
  | _ + 1, '\x7d' :: _ => none
  | fuel + 1, '\x7b' :: rest =>
    (match rest.dropWhile (fun c => c ≠ '\x7d') with
     | '\x7d' :: rest2 =>
       (match fieldValue dateStr countStr (rest.takeWhile (fun c => c ≠ '\x7d')) with
        | some v => (fmtGo dateStr countStr fuel rest2).map (v.data ++ ·)
        | none => none)
     | _ => none)
  | fuel + 1, c :: rest => (fmtGo dateStr countStr fuel rest).map (c :: ·)

/-- Model of `tmpl.format(date_format=dateStr, file_count=countStr)`. -/
def pyFormat (tmpl dateStr countStr : String) : Option String :=
  (fmtGo dateStr countStr (tmpl.data.length + 1) tmpl.data).map fun l => ⟨l⟩

/-- The default archive name template (line 119 of the source). -/
def defaultArchiveNameFormat : String := "archive_{date_format}_[{file_count}].zip"

/-- The default output date format (line 120 of the source). -/
def defaultDateFormat : String := "%Y-%m-%d"

/-! ## Archiver: `zip_sorted_folders` (lines 116-161) -/

/-- One immediate subdirectory of the sorted root.  `entries` are the
'/'-separated paths, relative to this bucket, of the regular files anywhere
in its subtree (directory-listing order). -/
structure Bucket where
  name : String
  entries : List String
deriving DecidableEq, Repr

/-- One output archive as written: its rendered file name and the list of
internal member paths, in write order. -/
structure ZipOut where
  name : String
  members : List String
deriving DecidableEq, Repr

/-- The fatal exceptions the pipeline can raise, each carrying the context
the message names: `zipfile.BadZipFile` with the offending input path,
`ValueError` from `strptime` with the unparsable folder name, and
KeyError/ValueError from `str.format` with the template. -/
inductive RunErr where
  | badZip : String → RunErr
  | badFolder : String → RunErr
  | badTemplate : String → RunErr
deriving DecidableEq, Repr

/-- The files `glob.glob(f"{sorted_folder}/*.*")` finds inside a bucket:
only entries directly inside it (no '/' in the relative path) whose name
matches `*.*`. -/
def globBucket (b : Bucket) : List String := b.entries.filter matchesStarDotStar

/-- Model of `zip_sorted_folders`: for each immediate subdirectory of the
sorted root, glob `*.*`, skip the folder when nothing matched, else parse its
name with `strptime(· , "%m_%d_%Y")`, render the date with the configured
output format, substitute date and file count into the template, and write
one archive whose members are the matched files under their paths relative
to the bucket.  Returns the archives actually written before any failure,
and the first fatal error if one occurred (the raised exception aborts the
whole run). -/
def zip_sorted_folders (root tmpl fmt : String) :
    List Bucket → List ZipOut × Option RunErr
  | [] => ([], none)
  | b :: rest =>
    let bucketPath := joinPath root b.name
    let matched := (globBucket b).map (joinPath bucketPath)
    if matched.length = 0 then zip_sorted_folders root tmpl fmt rest
    else
      match strptime_mdY b.name with
      | none => ([], some (RunErr.badFolder b.name))
      | some dt =>
        match pyFormat tmpl (strftimeD fmt dt) (toString matched.length) with
        | none => ([], some (RunErr.badTemplate tmpl))
        | some archiveName =>
          let res := zip_sorted_folders root tmpl fmt rest
          (⟨archiveName, matched.map (fun f => relpathUnder f bucketPath)⟩ :: res.1, res.2)

/-- The archive file name `zip_sorted_folders` renders for one bucket
(lines 143-153): a function of the bucket's folder name and its matched file
count only. -/
def archiveNameFor (tmpl fmt : String) (b : Bucket) : Option String :=
  match strptime_mdY b.name with
  | none => none
  | some dt => pyFormat tmpl (strftimeD fmt dt) (toString (globBucket b).length)

/-! ## Extractor: `unzip_all_zip_files` (lines 55-81) -/

/-- The six-field `date_time` tuple stored in a zip member's header. -/
structure DT6 where
  year : Nat
  month : Nat
  day : Nat
  hour : Nat
  minute : Nat
  second : Nat
deriving DecidableEq, Repr

/-- One member of an input zip archive. -/
structure Member where
  filename : String
  date_time : DT6
deriving DecidableEq, Repr

/-- One input zip file: `valid` is whether `zipfile.ZipFile(path, 'r')`
opens it; an invalid file raises `BadZipFile`. -/
structure ZipSrc where
  path : String
  valid : Bool
  members : List Member
deriving DecidableEq, Repr

/-- Access and modification timestamps of one on-disk file, the pair
`os.utime` sets. -/
structure FTimes where
  atime : Int
  mtime : Int
deriving DecidableEq, Repr

/-- The scratch filesystem's timestamp state: an association list from full
path to timestamps, newest write first. -/
abbrev Fs := List (String × FTimes)

/-- Record a write (file creation or `os.utime`) at a path. -/
def setFile (fs : Fs) (p : String) (t : FTimes) : Fs := (p, t) :: fs

/-- The current timestamps of the file at a path, latest write winning. -/
def lookupFile : Fs → String → Option FTimes
  | [], _ => none
  | (q, t) :: rest, p => if q = p then some t else lookupFile rest p

/-- Model of the body of the extraction loop for one archive (lines 71-81):
`extractall` materializes every member with the extraction wall-clock time
`now`, then the per-member loop rewrites each member's access and
modification times to `time.mktime(member.date_time + (0, 0, -1))` — the
stored timestamp converted through local time with the explicit
"DST unknown" flag `-1`.  `mktime` is the platform's local-time conversion,
an uninterpreted parameter applied to the tuple and the DST flag. -/
def unzipOne (mktime : DT6 → Int → Int) (now : Int) (dir : String) (fs : Fs)
    (z : ZipSrc) : Fs :=
  let fs1 := z.members.foldl (fun a m => setFile a (joinPath dir m.filename) ⟨now, now⟩) fs
  z.members.foldl
    (fun a m =>
      setFile a (joinPath dir m.filename)
        ⟨mktime m.date_time (-1), mktime m.date_time (-1)⟩)
    fs1

/-- Model of `unzip_all_zip_files`: process each discovered `*.zip` in order;
opening an invalid archive raises `BadZipFile`, aborting the loop with the
scratch state written so far. -/
def unzip_all_zip_files (mktime : DT6 → Int → Int) (now : Int) (dir : String) :
    List ZipSrc → Fs → Fs × Option RunErr
  | [], fs => (fs, none)
  | z :: rest, fs =>
    if z.valid then unzip_all_zip_files mktime now dir rest (unzipOne mktime now dir fs z)
    else (fs, some (RunErr.badZip z.path))

/-! ## Orchestration: `main` (lines 164-259) -/

/-- Append a file to its bucket, creating the bucket on first use — the
cumulative effect of `make_folder` plus `shutil.move` on the sorted root. -/
def addToBuckets : List Bucket → String → String → List Bucket
  | [], key, fname => [⟨key, [fname]⟩]
  | b :: rest, key, fname =>
    if b.name = key then ⟨b.name, b.entries ++ [fname]⟩ :: rest
    else b :: addToBuckets rest key fname

/-- The sorted root's subdirectories after the Bucketer's moves. -/
def bucketsOf (moves : List (String × FsFile)) : List Bucket :=
  moves.foldl (fun bs mv => addToBuckets bs mv.1 mv.2.name) []

/-- Keep the first occurrence of each element. -/
def dedupFirst : List String → List String
  | [] => []
  | x :: xs => x :: (dedupFirst xs).filter (fun y => y ≠ x)

/-- The directory listing of the scratch folder derived from the extraction
state: each written path, relative to the scratch folder, with its current
modification time. -/
def listFiles (dir : String) (fs : Fs) : List FsFile :=
  (dedupFirst (fs.map Prod.fst)).filterMap fun p =>
    match lookupFile fs p with
    | some t => some ⟨relpathUnder p dir, t.mtime⟩
    | none => none

/-- The three-stage pipeline `main` runs after argument handling
(lines 253-259): extract every input archive, bucket the scratch files by
date, archive the buckets.  Returns the output archives written and the
fatal error, if any; an error means the process died with a traceback
(non-zero exit status). -/
def pipeline (mktime : DT6 → Int → Int) (now : Int) (toDate : Int → SDate)
    (unzipDir sortDir tmpl fmt : String) (zips : List ZipSrc) :
    List ZipOut × Option RunErr :=
  match unzip_all_zip_files mktime now unzipDir zips [] with
  | (_, some e) => ([], some e)
  | (fs, none) =>
    zip_sorted_folders sortDir tmpl fmt
      (bucketsOf (sort_files_by_date toDate (listFiles unzipDir fs)))

/-! ## `make_folder` (lines 26-35) -/

/-- A filesystem for the directory-creation model: the set of existing
directory paths and the set of existing file paths. -/
structure World where
  dirs : List String
  files : List String
deriving DecidableEq, Repr

/-- Model of `os.path.exists`: true for a directory or a file at the path. -/
def pathExists (w : World) (p : String) : Bool :=
  w.dirs.contains p || w.files.contains p

/-- Every ancestor of a '/'-separated path, from the topmost component down
to the path itself — the directories `os.makedirs` ensures exist. -/
def ancestorPaths (p : String) : List String :=
  let comps := p.splitOn "/"
  ((List.range (comps.length - 1)).map fun i => String.intercalate "/" (comps.take (i + 1)))
    ++ [p]

/-- Model of `os.makedirs(p)`: create the missing ancestors and the
directory itself; existing entries are untouched. -/
def makedirs (w : World) (p : String) : World :=
  { w with dirs := w.dirs ++ (ancestorPaths p).filter (fun q => !pathExists w q) }

/-- Model of `make_folder`: create the folder only when nothing exists at
the path, otherwise leave the filesystem untouched. -/
def make_folder (w : World) (p : String) : World :=
  if pathExists w p then w else makedirs w p

/-! ## Helper lemmas -/

theorem relpath_join (base p : String) : relpathUnder (joinPath base p) base = p := by
  have hdata : (joinPath base p).data = (base.data ++ ['/']) ++ p.data := by
    simp [joinPath, String.data_append, List.append_assoc]
  simp only [relpathUnder, hdata]
  rw [if_pos]
  · have hlen : base.data.length + 1 = (base.data ++ ['/']).length := by simp
    rw [hlen, List.drop_left]
  · rw [List.isPrefixOf_iff_prefix]
    exact List.prefix_append _ _

/-! ## The claims -/

/-- C10: `make_folder` creates the target directory only when nothing exists
at the path and performs no filesystem change otherwise; in particular an
existing destination directory and all existing contents are preserved, and
after the call the directory exists. -/
theorem make_folder_idempotent (w : World) (p : String) :
    (pathExists w p = true → make_folder w p = w) ∧
    (make_folder w p).files = w.files ∧
    (∀ q, q ∈ w.dirs → q ∈ (make_folder w p).dirs) ∧
    (pathExists w p = false → p ∈ (make_folder w p).dirs) := by
  by_cases h : pathExists w p
  · refine ⟨fun _ => by simp [make_folder, h], by simp [make_folder, h], ?_, ?_⟩
    · intro q hq; simpa [make_folder, h] using hq
    · intro hfalse; rw [h] at hfalse; cases hfalse
  · have hb : pathExists w p = false := by simpa using h
    refine ⟨fun htrue => (by rw [htrue] at hb; cases hb), by simp [make_folder, hb, makedirs], ?_, ?_⟩
    · intro q hq
      simp only [make_folder, hb, if_neg, makedirs, Bool.false_eq_true, ite_false]
      exact List.mem_append_left _ hq
    · intro _
      simp only [make_folder, hb, Bool.false_eq_true, ite_false, makedirs]
      refine List.mem_append_right _ (List.mem_filter.mpr ⟨?_, by simp [hb]⟩)
      simp [ancestorPaths]

/-- C10 witness: a concrete already-existing folder is left untouched. -/
theorem make_folder_idempotent_witness :
    make_folder ⟨["out"], ["out/a.txt"]⟩ "out" = ⟨["out"], ["out/a.txt"]⟩ :=
  (make_folder_idempotent ⟨["out"], ["out/a.txt"]⟩ "out").1 (by decide)

/-- C1 (amended): every regular file directly inside the scratch directory
whose name matches the glob pattern `*.*` is moved into exactly one date
bucket, the one keyed by its modification date rendered with `"%m_%d_%Y"`,
and the union of all bucket contents is exactly the set of `*.*`-matching
files; files whose names contain no dot (or start with one) are left
behind. -/
theorem sort_files_partition (toDate : Int → SDate) (files : List FsFile) :
    (∀ f ∈ files, matchesStarDotStar f.name = true →
      ((strftimeD bucketerDateFormat (toDate f.mtime), f) ∈ sort_files_by_date toDate files ∧
       ∀ k, (k, f) ∈ sort_files_by_date toDate files →
         k = strftimeD bucketerDateFormat (toDate f.mtime))) ∧
    (sort_files_by_date toDate files).map Prod.snd =
      files.filter (fun f => matchesStarDotStar f.name) := by
  constructor
  · intro f hf hmatch
    constructor
    · exact List.mem_map_of_mem _ (List.mem_filter.mpr ⟨hf, hmatch⟩)
    · intro k hk
      simp only [sort_files_by_date] at hk
      rcases List.mem_map.mp hk with ⟨a, _, heq⟩
      rw [Prod.mk.injEq] at heq
      obtain ⟨h1, h2⟩ := heq
      subst h2
      exact h1.symm
  · simp [sort_files_by_date, List.map_map, Function.comp_def]

/-- C1 witness: a dotted file lands in its date bucket. -/
theorem sort_files_partition_witness :
    ("06_15_2021", (⟨"a.txt", 0⟩ : FsFile)) ∈
      sort_files_by_date (fun _ => ⟨2021, 6, 15⟩) [⟨"a.txt", 0⟩] := by
  have h := (sort_files_partition (fun _ => ⟨2021, 6, 15⟩) [⟨"a.txt", 0⟩]).1
    ⟨"a.txt", 0⟩ (by simp) (by decide)
  exact (by decide :
    strftimeD bucketerDateFormat ((fun _ => (⟨2021, 6, 15⟩ : SDate)) (0 : Int)) =
      "06_15_2021") ▸ h.1

/-- C1 counterexample: a regular file named `README` sits in the scratch
directory, yet `sort_files_by_date` performs no move at all — the file is
silently left behind and belongs to no bucket, refuting the claim that every
regular file ends up in exactly one date bucket. -/
theorem sort_files_partition_counterexample :
    sort_files_by_date (fun _ => ⟨2021, 6, 15⟩) [⟨"README", 0⟩] = [] ∧
    ¬ ∃ k, (k, (⟨"README", 0⟩ : FsFile)) ∈
        sort_files_by_date (fun _ => ⟨2021, 6, 15⟩) [⟨"README", 0⟩] := by
  refine ⟨by decide, ?_⟩
  rintro ⟨k, hk⟩
  rw [show sort_files_by_date (fun _ => (⟨2021, 6, 15⟩ : SDate)) [⟨"README", 0⟩] = []
    from by decide] at hk
  exact List.not_mem_nil _ hk

/-! ### Unfolding equations for `zip_sorted_folders` -/

theorem zip_sorted_nil (root tmpl fmt : String) :
    zip_sorted_folders root tmpl fmt [] = ([], none) := rfl

theorem zip_sorted_cons_skip (root tmpl fmt : String) (b : Bucket) (rest : List Bucket)
    (h : globBucket b = []) :
    zip_sorted_folders root tmpl fmt (b :: rest) = zip_sorted_folders root tmpl fmt rest := by
  simp [zip_sorted_folders, h]

theorem zip_sorted_cons_badname (root tmpl fmt : String) (b : Bucket) (rest : List Bucket)
    (h : globBucket b ≠ []) (hp : strptime_mdY b.name = none) :
    zip_sorted_folders root tmpl fmt (b :: rest) = ([], some (RunErr.badFolder b.name)) := by
  simp [zip_sorted_folders, List.length_map, List.length_eq_zero, h, hp]

theorem zip_sorted_cons_badtmpl (root tmpl fmt : String) (b : Bucket) (rest : List Bucket)
    (dt : SDate) (h : globBucket b ≠ []) (hp : strptime_mdY b.name = some dt)
    (hr : pyFormat tmpl (strftimeD fmt dt) (toString (globBucket b).length) = none) :
    zip_sorted_folders root tmpl fmt (b :: rest) = ([], some (RunErr.badTemplate tmpl)) := by
  simp [zip_sorted_folders, List.length_map, List.length_eq_zero, h, hp, hr]

theorem zip_sorted_cons_ok (root tmpl fmt : String) (b : Bucket) (rest : List Bucket)
    (dt : SDate) (nm : String) (h : globBucket b ≠ []) (hp : strptime_mdY b.name = some dt)
    (hr : pyFormat tmpl (strftimeD fmt dt) (toString (globBucket b).length) = some nm) :
    zip_sorted_folders root tmpl fmt (b :: rest) =
      (⟨nm, (globBucket b).map
          (fun p => relpathUnder (joinPath (joinPath root b.name) p) (joinPath root b.name))⟩
        :: (zip_sorted_folders root tmpl fmt rest).1,
       (zip_sorted_folders root tmpl fmt rest).2) := by
  simp [zip_sorted_folders, List.length_map, List.length_eq_zero, h, hp, hr,
    List.map_map, Function.comp_def]

/-- C4 (amended): when the run succeeds, `zip_sorted_folders` writes exactly
one output archive for every bucket folder in which the glob `*.*` matched
at least one direct entry, and none for any other bucket (in particular none
for an empty bucket); a bucket whose files all lack a dot in their name is
skipped like an empty one. -/
theorem zip_sorted_bucket_archive_count (root tmpl fmt : String) (bs : List Bucket)
    (h : (zip_sorted_folders root tmpl fmt bs).2 = none) :
    (zip_sorted_folders root tmpl fmt bs).1.length =
      (bs.filter fun b => !(globBucket b).isEmpty).length := by
  induction bs with
  | nil => simp [zip_sorted_nil]
  | cons b rest ih =>
    by_cases h0 : globBucket b = []
    · rw [zip_sorted_cons_skip root tmpl fmt b rest h0] at h ⊢
      rw [ih h]
      simp [List.filter_cons, List.isEmpty_iff, h0]
    · cases hp : strptime_mdY b.name with
      | none =>
        rw [zip_sorted_cons_badname root tmpl fmt b rest h0 hp] at h
        cases h
      | some dt =>
        cases hr : pyFormat tmpl (strftimeD fmt dt) (toString (globBucket b).length) with
        | none =>
          rw [zip_sorted_cons_badtmpl root tmpl fmt b rest dt h0 hp hr] at h
          cases h
        | some nm =>
          rw [zip_sorted_cons_ok root tmpl fmt b rest dt nm h0 hp hr] at h ⊢
          simp only [List.length_cons, List.filter_cons]
          rw [ih h]
          simp [List.isEmpty_iff, h0]

/-- C4 witness: a bucket with two dotted files yields exactly one archive. -/
theorem zip_sorted_bucket_archive_count_witness :
    (zip_sorted_folders "r" defaultArchiveNameFormat defaultDateFormat
        [⟨"06_15_2021", ["photo.jpg", "notes.txt"]⟩]).1.length =
      ([⟨"06_15_2021", ["photo.jpg", "notes.txt"]⟩].filter
        fun (b : Bucket) => !(globBucket b).isEmpty).length :=
  zip_sorted_bucket_archive_count "r" defaultArchiveNameFormat defaultDateFormat
    [⟨"06_15_2021", ["photo.jpg", "notes.txt"]⟩] (by decide)

/-- C4 counterexample: a bucket folder holding one regular file named
`README` produces zero output archives, refuting the claim that every bucket
containing at least one file yields exactly one archive. -/
theorem zip_sorted_bucket_archive_count_counterexample :
    ((⟨"06_15_2021", ["README"]⟩ : Bucket).entries.length = 1) ∧
    zip_sorted_folders "r" defaultArchiveNameFormat defaultDateFormat
      [⟨"06_15_2021", ["README"]⟩] = ([], none) := by
  exact ⟨by decide, by decide⟩

/-- C2 (amended): every output archive's member list consists of exactly the
files the glob `*.*` matched directly inside its bucket — the walk is not
recursive, files in subdirectories of a bucket are not collected — and each
member's internal path is its path relative to the bucket root (which, the
walk being flat, is its base name). -/
theorem zip_sorted_member_paths (root tmpl fmt : String) (bs : List Bucket) :
    ∀ out ∈ (zip_sorted_folders root tmpl fmt bs).1, ∃ b, b ∈ bs ∧
      globBucket b ≠ [] ∧
      out.members = (globBucket b).map
        (fun p => relpathUnder (joinPath (joinPath root b.name) p) (joinPath root b.name)) ∧
      out.members = globBucket b := by
  induction bs with
  | nil => intro out hout; simp [zip_sorted_nil] at hout
  | cons b rest ih =>
    intro out hout
    by_cases h0 : globBucket b = []
    · rw [zip_sorted_cons_skip root tmpl fmt b rest h0] at hout
      rcases ih out hout with ⟨b', hb', hrest⟩
      exact ⟨b', List.mem_cons_of_mem _ hb', hrest⟩
    · cases hp : strptime_mdY b.name with
      | none =>
        rw [zip_sorted_cons_badname root tmpl fmt b rest h0 hp] at hout
        simp at hout
      | some dt =>
        cases hr : pyFormat tmpl (strftimeD fmt dt) (toString (globBucket b).length) with
        | none =>
          rw [zip_sorted_cons_badtmpl root tmpl fmt b rest dt h0 hp hr] at hout
          simp at hout
        | some nm =>
          rw [zip_sorted_cons_ok root tmpl fmt b rest dt nm h0 hp hr] at hout
          rcases List.mem_cons.mp hout with heq | hmem
          · refine ⟨b, List.mem_cons_self _ _, h0, ?_, ?_⟩
            · rw [heq]
            · rw [heq]
              simp [relpath_join]
          · rcases ih out hmem with ⟨b', hb', hrest⟩
            exact ⟨b', List.mem_cons_of_mem _ hb', hrest⟩

/-- C2 witness: a dotted file directly inside a bucket is archived under its
own base name. -/
theorem zip_sorted_member_paths_witness :
    ∃ b, b ∈ [(⟨"06_15_2021", ["photo.jpg", "notes.txt"]⟩ : Bucket)] ∧
      globBucket b ≠ [] ∧
      (⟨"archive_2021-06-15_[2].zip", ["photo.jpg", "notes.txt"]⟩ : ZipOut).members =
        (globBucket b).map
          (fun p => relpathUnder (joinPath (joinPath "r" b.name) p) (joinPath "r" b.name)) ∧
      (⟨"archive_2021-06-15_[2].zip", ["photo.jpg", "notes.txt"]⟩ : ZipOut).members =
        globBucket b :=
  zip_sorted_member_paths "r" defaultArchiveNameFormat defaultDateFormat
    [⟨"06_15_2021", ["photo.jpg", "notes.txt"]⟩]
    ⟨"archive_2021-06-15_[2].zip", ["photo.jpg", "notes.txt"]⟩ (by decide)

/-- C2 counterexample: a bucket whose only file sits in a subdirectory
(`sub/x.txt`) produces no archive at all — the subtree is not walked — so
the claim that the full subtree is collected recursively fails on the
code. -/
theorem zip_sorted_member_paths_counterexample :
    ((⟨"06_15_2021", ["sub/x.txt"]⟩ : Bucket).entries ≠ []) ∧
    zip_sorted_folders "r" defaultArchiveNameFormat defaultDateFormat
      [⟨"06_15_2021", ["sub/x.txt"]⟩] = ([], none) := by
  exact ⟨by decide, by decide⟩

/-- C9: for every output archive written, the member count substituted into
its rendered name is exactly the number of members written into it — both
come from the same glob result collected before the write. -/
theorem zip_sorted_count_in_name (root tmpl fmt : String) (bs : List Bucket) :
    ∀ out ∈ (zip_sorted_folders root tmpl fmt bs).1,
      ∃ dateStr, pyFormat tmpl dateStr (toString out.members.length) = some out.name := by
  induction bs with
  | nil => intro out hout; simp [zip_sorted_nil] at hout
  | cons b rest ih =>
    intro out hout
    by_cases h0 : globBucket b = []
    · rw [zip_sorted_cons_skip root tmpl fmt b rest h0] at hout
      exact ih out hout
    · cases hp : strptime_mdY b.name with
      | none =>
        rw [zip_sorted_cons_badname root tmpl fmt b rest h0 hp] at hout
        simp at hout
      | some dt =>
        cases hr : pyFormat tmpl (strftimeD fmt dt) (toString (globBucket b).length) with
        | none =>
          rw [zip_sorted_cons_badtmpl root tmpl fmt b rest dt h0 hp hr] at hout
          simp at hout
        | some nm =>
          rw [zip_sorted_cons_ok root tmpl fmt b rest dt nm h0 hp hr] at hout
          rcases List.mem_cons.mp hout with heq | hmem
          · refine ⟨strftimeD fmt dt, ?_⟩
            rw [heq]
            simpa [List.length_map] using hr
          · exact ih out hmem

/-- C9 witness: in a concrete run the name of the written archive embeds the
count of its own member list. -/
theorem zip_sorted_count_in_name_witness :
    ∃ dateStr, pyFormat defaultArchiveNameFormat dateStr
        (toString (⟨"archive_2021-06-15_[2].zip", ["photo.jpg", "notes.txt"]⟩ : ZipOut).members.length) =
      some (⟨"archive_2021-06-15_[2].zip", ["photo.jpg", "notes.txt"]⟩ : ZipOut).name :=
  zip_sorted_count_in_name "r" defaultArchiveNameFormat defaultDateFormat
    [⟨"06_15_2021", ["photo.jpg", "notes.txt"]⟩]
    ⟨"archive_2021-06-15_[2].zip", ["photo.jpg", "notes.txt"]⟩ (by decide)

/-- The default archive-name template always renders: its two fields are
exactly the keyword arguments the code passes, so `str.format` cannot fail
on it. -/
theorem pyFormat_default_ne_none (d c : String) :
    pyFormat defaultArchiveNameFormat d c ≠ none :=
  fun h => Option.noConfusion h

/-- C6: the rendered output archive name is a function of the bucket's
folder name and matched member count alone, given a fixed template and date
format — two buckets agreeing on those render identical names across any two
runs, every archive `zip_sorted_folders` writes carries exactly that
rendered name, and with the default template and date format a bucket for
2021-06-15 holding 2 members renders as `archive_2021-06-15_[2].zip`. -/
theorem archive_name_deterministic :
    (∀ tmpl fmt : String, ∀ b1 b2 : Bucket, b1.name = b2.name →
      (globBucket b1).length = (globBucket b2).length →
      archiveNameFor tmpl fmt b1 = archiveNameFor tmpl fmt b2) ∧
    archiveNameFor defaultArchiveNameFormat defaultDateFormat
      ⟨"06_15_2021", ["photo.jpg", "notes.txt"]⟩ = some "archive_2021-06-15_[2].zip" ∧
    (∀ root tmpl fmt : String, ∀ bs : List Bucket,
      ∀ out ∈ (zip_sorted_folders root tmpl fmt bs).1,
        ∃ b, b ∈ bs ∧ archiveNameFor tmpl fmt b = some out.name) := by
  refine ⟨?_, by decide, ?_⟩
  · intro tmpl fmt b1 b2 h1 h2
    rw [archiveNameFor, archiveNameFor, h1, h2]
  · intro root tmpl fmt bs
    induction bs with
    | nil => intro out hout; simp [zip_sorted_nil] at hout
    | cons b rest ih =>
      intro out hout
      by_cases h0 : globBucket b = []
      · rw [zip_sorted_cons_skip root tmpl fmt b rest h0] at hout
        rcases ih out hout with ⟨b', hb', hname⟩
        exact ⟨b', List.mem_cons_of_mem _ hb', hname⟩
      · cases hp : strptime_mdY b.name with
        | none =>
          rw [zip_sorted_cons_badname root tmpl fmt b rest h0 hp] at hout
          simp at hout
        | some dt =>
          cases hr : pyFormat tmpl (strftimeD fmt dt) (toString (globBucket b).length) with
          | none =>
            rw [zip_sorted_cons_badtmpl root tmpl fmt b rest dt h0 hp hr] at hout
            simp at hout
          | some nm =>
            rw [zip_sorted_cons_ok root tmpl fmt b rest dt nm h0 hp hr] at hout
            rcases List.mem_cons.mp hout with heq | hmem
            · refine ⟨b, List.mem_cons_self _ _, ?_⟩
              rw [heq]
              simp [archiveNameFor, hp, hr]
            · rcases ih out hmem with ⟨b', hb', hname⟩
              exact ⟨b', List.mem_cons_of_mem _ hb', hname⟩

/-- C6 witness: two buckets with the same folder name and the same matched
count — but different member file names — render the same archive name. -/
theorem archive_name_deterministic_witness :
    archiveNameFor defaultArchiveNameFormat defaultDateFormat ⟨"06_15_2021", ["a.jpg"]⟩ =
      archiveNameFor defaultArchiveNameFormat defaultDateFormat ⟨"06_15_2021", ["b.txt"]⟩ :=
  archive_name_deterministic.1 defaultArchiveNameFormat defaultDateFormat
    ⟨"06_15_2021", ["a.jpg"]⟩ ⟨"06_15_2021", ["b.txt"]⟩ rfl (by decide)

/-- C8 (amended): a bucket folder whose name does not parse under
`"%m_%d_%Y"` makes `zip_sorted_folders` raise a format error naming an
offending folder and abort the run — provided the bucket contains at least
one `*.*`-matching direct file, since the empty-bucket skip is checked
before the name is parsed; the template is assumed renderable (as the
default is), so the first fatal error is the folder parse. -/
theorem zip_sorted_badname_fatal (root tmpl fmt : String) (bs : List Bucket) (b : Bucket)
    (hb : b ∈ bs) (hne : globBucket b ≠ []) (hp : strptime_mdY b.name = none)
    (htmpl : ∀ d c : String, pyFormat tmpl d c ≠ none) :
    ∃ b', b' ∈ bs ∧ strptime_mdY b'.name = none ∧ globBucket b' ≠ [] ∧
      (zip_sorted_folders root tmpl fmt bs).2 = some (RunErr.badFolder b'.name) := by
  induction bs with
  | nil => cases hb
  | cons b0 rest ih =>
    by_cases h0 : globBucket b0 = []
    · have hbrest : b ∈ rest := by
        rcases List.mem_cons.mp hb with heq | hmem
        · subst heq; exact absurd h0 hne
        · exact hmem
      rcases ih hbrest with ⟨b', hb', hrest⟩
      refine ⟨b', List.mem_cons_of_mem _ hb', hrest.1, hrest.2.1, ?_⟩
      rw [zip_sorted_cons_skip root tmpl fmt b0 rest h0]
      exact hrest.2.2
    · cases hp0 : strptime_mdY b0.name with
      | none =>
        refine ⟨b0, List.mem_cons_self _ _, hp0, h0, ?_⟩
        rw [zip_sorted_cons_badname root tmpl fmt b0 rest h0 hp0]
      | some dt =>
        cases hr : pyFormat tmpl (strftimeD fmt dt) (toString (globBucket b0).length) with
        | none => exact absurd hr (htmpl _ _)
        | some nm =>
          have hbrest : b ∈ rest := by
            rcases List.mem_cons.mp hb with heq | hmem
            · subst heq; rw [hp] at hp0; cases hp0
            · exact hmem
          rcases ih hbrest with ⟨b', hb', hrest⟩
          refine ⟨b', List.mem_cons_of_mem _ hb', hrest.1, hrest.2.1, ?_⟩
          rw [zip_sorted_cons_ok root tmpl fmt b0 rest dt nm h0 hp0 hr]
          exact hrest.2.2

/-- C8 witness: a malformed bucket folder holding a dotted file aborts the
run with a format error naming that folder. -/
theorem zip_sorted_badname_fatal_witness :
    ∃ b', b' ∈ [(⟨"garbage", ["a.txt"]⟩ : Bucket)] ∧ strptime_mdY b'.name = none ∧
      globBucket b' ≠ [] ∧
      (zip_sorted_folders "r" defaultArchiveNameFormat defaultDateFormat
        [⟨"garbage", ["a.txt"]⟩]).2 = some (RunErr.badFolder b'.name) :=
  zip_sorted_badname_fatal "r" defaultArchiveNameFormat defaultDateFormat
    [⟨"garbage", ["a.txt"]⟩] ⟨"garbage", ["a.txt"]⟩ (by decide) (by decide) (by decide)
    pyFormat_default_ne_none

/-- C8 counterexample: a subdirectory named `garbage` — which does not parse
under `"%m_%d_%Y"` — containing no `*.*` file is silently skipped with no
error at all, refuting the claim that any unparsable folder name makes
`zip_sorted_folders` fail with a format error. -/
theorem zip_sorted_badname_fatal_counterexample :
    strptime_mdY "garbage" = none ∧
    zip_sorted_folders "r" defaultArchiveNameFormat defaultDateFormat
      [⟨"garbage", []⟩] = ([], none) := by
  exact ⟨by decide, by decide⟩

/-! ### Extraction-state lemmas -/

theorem lookup_setFile_self (fs : Fs) (p : String) (t : FTimes) :
    lookupFile (setFile fs p t) p = some t := by
  simp [setFile, lookupFile]

theorem lookup_setFile_ne (fs : Fs) (p q : String) (t : FTimes) (h : q ≠ p) :
    lookupFile (setFile fs q t) p = lookupFile fs p := by
  simp [setFile, lookupFile, h]

theorem joinPath_injective (dir : String) : Function.Injective (joinPath dir) := by
  intro a b h
  have hd := congrArg String.data h
  simp only [joinPath, String.data_append, List.append_assoc] at hd
  have h1 := List.append_cancel_left hd
  have h2 := List.append_cancel_left h1
  cases a; cases b
  exact congrArg String.mk h2

theorem foldl_set_lookup_nomem (key : Member → String) (val : Member → FTimes)
    (l : List Member) (fs : Fs) (p : String) (h : ∀ x ∈ l, key x ≠ p) :
    lookupFile (l.foldl (fun a m => setFile a (key m) (val m)) fs) p = lookupFile fs p := by
  induction l generalizing fs with
  | nil => rfl
  | cons a rest ih =>
    rw [List.foldl_cons, ih _ fun x hx => h x (List.mem_cons_of_mem _ hx)]
    exact lookup_setFile_ne fs p (key a) (val a) (h a (List.mem_cons_self _ _))

theorem foldl_set_lookup_mem (key : Member → String) (val : Member → FTimes)
    (l : List Member) (fs : Fs) (m : Member) (hm : m ∈ l) (hnd : (l.map key).Nodup) :
    lookupFile (l.foldl (fun a x => setFile a (key x) (val x)) fs) (key m) = some (val m) := by
  induction l generalizing fs with
  | nil => cases hm
  | cons a rest ih =>
    rw [List.map_cons, List.nodup_cons] at hnd
    rw [List.foldl_cons]
    rcases List.mem_cons.mp hm with heq | hmem
    · subst heq
      have hno : ∀ x ∈ rest, key x ≠ key m := by
        intro x hx hkey
        exact hnd.1 (hkey ▸ List.mem_map_of_mem key hx)
      rw [foldl_set_lookup_nomem key val rest _ _ hno]
      exact lookup_setFile_self fs (key m) (val m)
    · exact ih _ hmem hnd.2

theorem unzipOne_lookup_mem (mktime : DT6 → Int → Int) (now : Int) (dir : String)
    (fs : Fs) (z : ZipSrc) (m : Member) (hm : m ∈ z.members)
    (hnd : (z.members.map (fun x => x.filename)).Nodup) :
    lookupFile (unzipOne mktime now dir fs z) (joinPath dir m.filename) =
      some ⟨mktime m.date_time (-1), mktime m.date_time (-1)⟩ := by
  have hndk : (z.members.map (fun x => joinPath dir x.filename)).Nodup := by
    have hmm : z.members.map (fun x => joinPath dir x.filename) =
        (z.members.map (fun x => x.filename)).map (joinPath dir) := by
      simp [List.map_map, Function.comp_def]
    rw [hmm]
    exact hnd.map (joinPath_injective dir)
  exact foldl_set_lookup_mem (fun x => joinPath dir x.filename)
    (fun x => ⟨mktime x.date_time (-1), mktime x.date_time (-1)⟩) z.members _ m hm hndk

theorem unzipOne_lookup_nomem (mktime : DT6 → Int → Int) (now : Int) (dir : String)
    (fs : Fs) (z : ZipSrc) (p : String)
    (h : ∀ m' ∈ z.members, joinPath dir m'.filename ≠ p) :
    lookupFile (unzipOne mktime now dir fs z) p = lookupFile fs p := by
  simp only [unzipOne]
  rw [foldl_set_lookup_nomem (fun x => joinPath dir x.filename) _ _ _ _ h,
    foldl_set_lookup_nomem (fun x => joinPath dir x.filename) _ _ _ _ h]

theorem unzipAll_lookup_nomem (mktime : DT6 → Int → Int) (now : Int) (dir : String)
    (zips : List ZipSrc) (fs : Fs) (p : String)
    (h : ∀ z' ∈ zips, ∀ m' ∈ z'.members, joinPath dir m'.filename ≠ p) :
    lookupFile ((unzip_all_zip_files mktime now dir zips fs).1) p = lookupFile fs p := by
  induction zips generalizing fs with
  | nil => rfl
  | cons z0 rest ih =>
    by_cases hv : z0.valid = true
    · simp only [unzip_all_zip_files, hv, if_true]
      rw [ih _ fun z' hz' => h z' (List.mem_cons_of_mem _ hz')]
      exact unzipOne_lookup_nomem mktime now dir fs z0 p (h z0 (List.mem_cons_self _ _))
    · simp [unzip_all_zip_files, hv]

/-- C3: for every member of every input archive, once
`unzip_all_zip_files` completes the extracted file's on-disk modification
and access timestamps equal `mktime(member.date_time + (0, 0, -1))` — the
stored timestamp converted through the platform's local time with the
explicit unknown-DST flag — and in particular are independent of the
extraction wall-clock time `now` (which appears nowhere in the result).
Member names are assumed distinct across the archives, as the claim's
"the extracted file" presupposes (colliding names overwrite each other). -/
theorem extraction_timestamp_round_trip (mktime : DT6 → Int → Int) (now : Int)
    (dir : String) (zips : List ZipSrc) (fs0 : Fs) (z : ZipSrc) (m : Member)
    (hz : z ∈ zips) (hm : m ∈ z.members)
    (hvalid : ∀ z' ∈ zips, z'.valid = true)
    (hnd : (zips.flatMap fun z' => z'.members.map fun mm => mm.filename).Nodup) :
    lookupFile ((unzip_all_zip_files mktime now dir zips fs0).1) (joinPath dir m.filename) =
      some ⟨mktime m.date_time (-1), mktime m.date_time (-1)⟩ := by
  revert hz hvalid hnd
  induction zips generalizing fs0 with
  | nil => intro hz _ _; cases hz
  | cons z0 rest ih =>
    intro hz hvalid hnd
    have hv0 : z0.valid = true := hvalid z0 (List.mem_cons_self _ _)
    rw [List.flatMap_cons, List.nodup_append] at hnd
    simp only [unzip_all_zip_files, hv0, if_true]
    rcases List.mem_cons.mp hz with heq | hzrest
    · subst heq
      have hno : ∀ z' ∈ rest, ∀ m' ∈ z'.members,
          joinPath dir m'.filename ≠ joinPath dir m.filename := by
        intro z' hz' m' hm' hjoin
        have hfeq : m'.filename = m.filename := joinPath_injective dir hjoin
        refine hnd.2.2 ?_ (List.mem_flatMap.mpr ⟨z', hz', List.mem_map_of_mem _ hm'⟩)
        exact hfeq ▸ List.mem_map_of_mem _ hm
      rw [unzipAll_lookup_nomem mktime now dir rest _ _ hno]
      exact unzipOne_lookup_mem mktime now dir fs0 z m hm hnd.1
    · exact ih _ hzrest (fun z' hz' => hvalid z' (List.mem_cons_of_mem _ hz')) hnd.2.1

/-- C3 witness: one valid archive with one member; its extracted timestamps
come from the member's stored date-time via the DST-unknown conversion, not
from the wall clock (7). -/
theorem extraction_timestamp_round_trip_witness :
    lookupFile ((unzip_all_zip_files (fun _ _ => (42 : Int)) 7 "scratch"
        [⟨"a.zip", true, [⟨"photo.jpg", ⟨2021, 6, 15, 14, 30, 0⟩⟩]⟩] []).1)
      (joinPath "scratch" "photo.jpg") = some ⟨42, 42⟩ :=
  extraction_timestamp_round_trip (fun _ _ => (42 : Int)) 7 "scratch"
    [⟨"a.zip", true, [⟨"photo.jpg", ⟨2021, 6, 15, 14, 30, 0⟩⟩]⟩] []
    ⟨"a.zip", true, [⟨"photo.jpg", ⟨2021, 6, 15, 14, 30, 0⟩⟩]⟩
    ⟨"photo.jpg", ⟨2021, 6, 15, 14, 30, 0⟩⟩
    (by decide) (by decide) (by decide) (by decide)

/-- Any invalid input archive aborts `unzip_all_zip_files` with a
`BadZipFile` error. -/
theorem unzip_all_fatal (mktime : DT6 → Int → Int) (now : Int) (dir : String)
    (zips : List ZipSrc) (fs0 : Fs) (z : ZipSrc) (hz : z ∈ zips)
    (hbad : z.valid = false) :
    ∃ p fs', unzip_all_zip_files mktime now dir zips fs0 = (fs', some (RunErr.badZip p)) := by
  revert hz
  induction zips generalizing fs0 with
  | nil => intro hz; cases hz
  | cons z0 rest ih =>
    intro hz
    by_cases hv : z0.valid = true
    · have hzrest : z ∈ rest := by
        rcases List.mem_cons.mp hz with heq | hmem
        · subst heq; rw [hv] at hbad; cases hbad
        · exact hmem
      obtain ⟨p, fs', heq⟩ := ih _ hzrest
      exact ⟨p, fs', by simp only [unzip_all_zip_files, hv, if_true]; exact heq⟩
    · exact ⟨z0.path, fs0, by simp [unzip_all_zip_files, hv]⟩

/-- C7: if any input file matching `*.zip` is not a valid archive, the
pipeline dies with the decode error (a non-zero exit status) and writes no
output archives at all — the Archiver stage is never reached. -/
theorem pipeline_decode_fatal (mktime : DT6 → Int → Int) (now : Int)
    (toDate : Int → SDate) (unzipDir sortDir tmpl fmt : String) (zips : List ZipSrc)
    (z : ZipSrc) (hz : z ∈ zips) (hbad : z.valid = false) :
    ∃ p, pipeline mktime now toDate unzipDir sortDir tmpl fmt zips =
      ([], some (RunErr.badZip p)) := by
  obtain ⟨p, fs', heq⟩ := unzip_all_fatal mktime now unzipDir zips [] z hz hbad
  exact ⟨p, by simp [pipeline, heq]⟩

/-- C7 witness: a single corrupt archive yields the empty output list and a
decode error. -/
theorem pipeline_decode_fatal_witness :
    ∃ p, pipeline (fun _ _ => (0 : Int)) 0 (fun _ => ⟨2021, 6, 15⟩) "u" "s"
        defaultArchiveNameFormat defaultDateFormat [⟨"bad.zip", false, []⟩] =
      ([], some (RunErr.badZip p)) :=
  pipeline_decode_fatal (fun _ _ => (0 : Int)) 0 (fun _ => ⟨2021, 6, 15⟩) "u" "s"
    defaultArchiveNameFormat defaultDateFormat [⟨"bad.zip", false, []⟩]
    ⟨"bad.zip", false, []⟩ (by decide) rfl

/-! ### Round trip of the date key through render and parse -/

theorem digitVal?_digitChar (n : Nat) (h : n < 10) : digitVal? (digitChar n) = some n := by
  interval_cases n <;> decide

theorem year4_pad4 (y : Nat) (h : y ≤ 9999) (r : List Char) :
    year4 (pad4c y ++ r) = some (y, r) := by
  have h1 : y / 1000 < 10 := by omega
  have h2 : y / 100 % 10 < 10 := by omega
  have h3 : y / 10 % 10 < 10 := by omega
  have h4 : y % 10 < 10 := by omega
  have hsum : 1000 * (y / 1000) + 100 * (y / 100 % 10) + 10 * (y / 10 % 10) + y % 10 = y := by
    omega
  simp only [pad4c, List.cons_append, List.nil_append, year4,
    digitVal?_digitChar _ h1, digitVal?_digitChar _ h2, digitVal?_digitChar _ h3,
    digitVal?_digitChar _ h4, hsum]

theorem monthCands_pad2_lo (m : Nat) (h1 : 1 ≤ m) (h2 : m < 10) (rest : List Char) :
    monthCands (pad2c m ++ rest) = [(m, rest)] := by
  have hq : m / 10 = 0 := by omega
  have hr : m % 10 = m := by omega
  have hcond : (0 = 1 ∧ m ≤ 2) ∨ (0 = 0 ∧ 1 ≤ m) := Or.inr ⟨rfl, h1⟩
  simp only [pad2c, hq, hr, List.cons_append, List.nil_append, monthCands,
    digitVal?_digitChar 0 (by norm_num), digitVal?_digitChar m h2, if_pos hcond]
  norm_num
  omega

theorem monthCands_pad2_hi (m : Nat) (h1 : 10 ≤ m) (h2 : m ≤ 12) (rest : List Char) :
    monthCands (pad2c m ++ rest) = [(m, rest), (1, digitChar (m % 10) :: rest)] := by
  have hq : m / 10 = 1 := by omega
  have hlt : m % 10 < 10 := by omega
  have hcond : (1 = 1 ∧ m % 10 ≤ 2) ∨ (1 = 0 ∧ 1 ≤ m % 10) := Or.inl ⟨rfl, by omega⟩
  have hval : 10 * 1 + m % 10 = m := by omega
  simp only [pad2c, hq, List.cons_append, List.nil_append, monthCands,
    digitVal?_digitChar 1 (by norm_num), digitVal?_digitChar _ hlt, if_pos hcond, hval]
  have hc : (True ∧ m % 10 ≤ 2 ∨ 1 = 0 ∧ 1 ≤ m % 10) := Or.inl ⟨trivial, by omega⟩
  simp [hc]
  rw [if_pos (show m % 10 ≤ 2 from by omega)]
  rfl

theorem dayCands_pad2_lo (d : Nat) (h1 : 1 ≤ d) (h2 : d < 10) (rest : List Char) :
    dayCands (pad2c d ++ rest) = [(d, rest)] := by
  have hq : d / 10 = 0 := by omega
  have hr : d % 10 = d := by omega
  have hcond : (0 = 3 ∧ d ≤ 1) ∨ 0 = 1 ∨ 0 = 2 ∨ (0 = 0 ∧ 1 ≤ d) :=
    Or.inr (Or.inr (Or.inr ⟨rfl, h1⟩))
  simp only [pad2c, hq, hr, List.cons_append, List.nil_append, dayCands,
    digitVal?_digitChar 0 (by norm_num), digitVal?_digitChar d h2, if_pos hcond]
  norm_num
  omega

theorem dayCands_pad2_hi (d : Nat) (h1 : 10 ≤ d) (h2 : d ≤ 31) (rest : List Char) :
    dayCands (pad2c d ++ rest) = [(d, rest), (d / 10, digitChar (d % 10) :: rest)] := by
  have hqlt : d / 10 < 10 := by omega
  have hrlt : d % 10 < 10 := by omega
  have hcond : (d / 10 = 3 ∧ d % 10 ≤ 1) ∨ d / 10 = 1 ∨ d / 10 = 2 ∨
      (d / 10 = 0 ∧ 1 ≤ d % 10) := by omega
  have hone : 1 ≤ d / 10 := by omega
  have hval : 10 * (d / 10) + d % 10 = d := by omega
  simp only [pad2c, List.cons_append, List.nil_append, dayCands,
    digitVal?_digitChar _ hqlt, digitVal?_digitChar _ hrlt, if_pos hcond, if_pos hone, hval]

theorem firstSome_cons_some {α β : Type} (x : α) (xs : List α) (f : α → Option β) (b : β)
    (h : f x = some b) : firstSome (x :: xs) f = some b := by
  simp [firstSome, h]

theorem parseMDY_render (m d y : Nat) (hm1 : 1 ≤ m) (hm2 : m ≤ 12) (hd1 : 1 ≤ d)
    (hd2 : d ≤ 31) (hy : y ≤ 9999) :
    parseMDY (pad2c m ++ '_' :: (pad2c d ++ '_' :: pad4c y)) = some (m, d, y) := by
  have hyear : year4 (pad4c y) = some (y, []) := by
    have h := year4_pad4 y hy []
    simpa using h
  have hday : firstSome (dayCands (pad2c d ++ '_' :: pad4c y))
      (fun dc => match dc.2 with
        | '_' :: r4 =>
          (match year4 r4 with
           | some (yy, []) => some (m, dc.1, yy)
           | _ => none)
        | _ => none) = some (m, d, y) := by
    rcases Nat.lt_or_ge d 10 with hdlo | hdhi
    · rw [dayCands_pad2_lo d hd1 hdlo]
      exact firstSome_cons_some _ _ _ _ (by simp [hyear])
    · rw [dayCands_pad2_hi d hdhi hd2]
      exact firstSome_cons_some _ _ _ _ (by simp [hyear])
  rcases Nat.lt_or_ge m 10 with hmlo | hmhi
  · rw [parseMDY, monthCands_pad2_lo m hm1 hmlo]
    exact firstSome_cons_some _ _ _ _ (by simpa using hday)
  · rw [parseMDY, monthCands_pad2_hi m hmhi hm2]
    exact firstSome_cons_some _ _ _ _ (by simpa using hday)

theorem daysInMonth_le_31 (y m : Nat) : daysInMonth y m ≤ 31 := by
  unfold daysInMonth
  split_ifs <;> norm_num

/-- C5: the format string the Bucketer uses to render a bucket folder name
and the format string the Archiver uses to parse it back are the identical
literal `"%m_%d_%Y"`, and for every representable calendar date the
Archiver's parse of the Bucketer's rendering recovers the date exactly (day
granularity). -/
theorem date_key_round_trip (dt : SDate) (hm1 : 1 ≤ dt.month) (hm2 : dt.month ≤ 12)
    (hd1 : 1 ≤ dt.day) (hd2 : dt.day ≤ daysInMonth dt.year dt.month)
    (hy1 : 1 ≤ dt.year) (hy2 : dt.year ≤ 9999) :
    bucketerDateFormat = archiverFolderDateFormat ∧
    strptime_mdY (strftimeD bucketerDateFormat dt) = some dt := by
  refine ⟨rfl, ?_⟩
  have hdata : (strftimeD bucketerDateFormat dt).data =
      pad2c dt.month ++ '_' :: (pad2c dt.day ++ '_' :: pad4c dt.year) := rfl
  have hd31 : dt.day ≤ 31 := le_trans hd2 (daysInMonth_le_31 dt.year dt.month)
  rw [strptime_mdY, hdata,
    parseMDY_render dt.month dt.day dt.year hm1 hm2 hd1 hd31 hy2]
  simp [hy1, hd2]

/-- C5 witness: the concrete date 2021-06-15 round-trips through the bucket
folder name `06_15_2021`. -/
theorem date_key_round_trip_witness :
    bucketerDateFormat = archiverFolderDateFormat ∧
    strptime_mdY (strftimeD bucketerDateFormat ⟨2021, 6, 15⟩) = some ⟨2021, 6, 15⟩ :=
  date_key_round_trip ⟨2021, 6, 15⟩ (by decide) (by decide) (by decide) (by decide)
    (by decide) (by decide)

end ZipSortZip
